import Mathlib

/-!
Verification of the invoice text-extraction core of `ecollision-paint-cloud`
(`netlify/functions/ocr-invoice.js`).

The JavaScript helpers are shallowly embedded over `List Char`:

* strings are lists of characters (JS `.slice`, `.split`, `.trim`,
  `.toLowerCase` become list operations; case folding is ASCII, which covers
  every character class the extractors test);
* JS numbers are modelled as exact rationals (`Rat`); every numeric value the
  code produces comes from `parseFloat` on short decimal digit strings, where
  float64 round-tripping prints the same decimal literal, so `mkRat`
  arithmetic is a faithful model;
* the regular expressions of the source are hand-compiled to deterministic
  matchers; each one is commented with the regex it implements, and the
  determinism argument (no observable backtracking) is noted where relevant;
* fallible extraction returns `Option`, absence of a field is `none`/`[]`.
-/

/-- JS `\s` / `String.prototype.trim` whitespace class (ASCII part plus the
Unicode space separators JS recognises). -/
def jsWs (c : Char) : Bool :=
  let n := c.toNat
  n == 9 || n == 10 || n == 11 || n == 12 || n == 13 || n == 32 ||
  n == 0xA0 || n == 0x1680 || (decide (0x2000 ≤ n) && decide (n ≤ 0x200A)) ||
  n == 0x2028 || n == 0x2029 || n == 0x202F || n == 0x205F || n == 0x3000 || n == 0xFEFF

/-- ASCII lower-casing of a string, as `toLowerCase` acts on the ASCII range. -/
def lowerStr (s : List Char) : List Char := s.map Char.toLower

/-- Whether `p` is a prefix of `s` (character-exact). -/
def startsWithL : List Char → List Char → Bool
  | [], _ => true
  | _ :: _, [] => false
  | a :: as, b :: bs => a == b && startsWithL as bs

/-- Whether `n` occurs in `s` as a contiguous substring (JS `includes`,
or an unanchored literal regex test). -/
def subOccurs (n : List Char) : List Char → Bool
  | [] => n.isEmpty
  | c :: rest => startsWithL n (c :: rest) || subOccurs n rest

/-- JS `text.split(/\r?\n/)`: cut at `"\r\n"` or `"\n"`; a lone `'\r'` is an
ordinary character. -/
def splitLines : List Char → List (List Char)
  | [] => [[]]
  | '\r' :: '\n' :: rest => [] :: splitLines rest
  | '\n' :: rest => [] :: splitLines rest
  | c :: rest =>
    match splitLines rest with
    | [] => [[c]]
    | l :: ls => (c :: l) :: ls

/-- JS `String.prototype.trim`. -/
def trimWs (l : List Char) : List Char :=
  ((l.dropWhile jsWs).reverse.dropWhile jsWs).reverse

/-- JS `replace(/\s+/g, " ")`: every maximal whitespace run becomes one space. -/
def collapseWs : List Char → List Char
  | [] => []
  | c :: rest =>
    let out := collapseWs rest
    if jsWs c then
      match out with
      | ' ' :: _ => out
      | _ => ' ' :: out
    else c :: out

/-- `line.replace(/\s+/g, " ").trim()` of the parser. -/
def normWs (l : List Char) : List Char := trimWs (collapseWs l)

/-- JS `split(" ")` (single-character separator; `"" → [""]`). -/
def splitOnSpace : List Char → List (List Char)
  | [] => [[]]
  | ' ' :: rest => [] :: splitOnSpace rest
  | c :: rest =>
    match splitOnSpace rest with
    | [] => [[c]]
    | l :: ls => (c :: l) :: ls

/-- JS `Array.prototype.join(" ")`. -/
def joinSpace (ls : List (List Char)) : List Char := List.intercalate [' '] ls

/-- JS `Array.prototype.join("\n")`. -/
def joinNL (ls : List (List Char)) : List Char := List.intercalate ['\n'] ls

/-- JS `a || b` on strings: the empty string is falsy. -/
def jsOr (a b : List Char) : List Char := if a.isEmpty then b else a

/-- First token (with its index) satisfying `p`, scanning left to right; the
common shape of the `for`-loops with `continue` in the source. -/
def scanList (p : List Char → Bool) : List (List Char) → Option (Nat × List Char)
  | [] => none
  | t :: ts =>
    if p t then some (0, t)
    else (scanList p ts).map (fun pr => (pr.1 + 1, pr.2))

/-- Like `scanList` but the test also produces a value (used when the loop
body parses the token). -/
def scanListV {β : Type} (f : List Char → Option β) : List (List Char) → Option (Nat × β)
  | [] => none
  | t :: ts =>
    match f t with
    | some b => some (0, b)
    | none => (scanListV f ts).map (fun pr => (pr.1 + 1, pr.2))

/-- Numeric value of a digit string (most significant first). -/
def digitsNat (s : List Char) : Nat := s.foldl (fun a c => 10 * a + (c.toNat - 48)) 0

/-- JS `parseFloat` restricted to the strings this program feeds it (digits
and dots only, no sign or exponent): the longest valid decimal prefix, `none`
for `NaN`. Values are exact rationals. -/
def parseFloatPrefix (s : List Char) : Option Rat :=
  let ip := s.takeWhile Char.isDigit
  let rest := s.drop ip.length
  if ip.isEmpty then
    match rest with
    | '.' :: t =>
      let fp := t.takeWhile Char.isDigit
      if fp.isEmpty then none
      else some (mkRat (digitsNat fp) (10 ^ fp.length))
    | _ => none
  else
    match rest with
    | '.' :: t =>
      let fp := t.takeWhile Char.isDigit
      some (mkRat (digitsNat ip * 10 ^ fp.length + digitsNat fp) (10 ^ fp.length))
    | _ => some (mkRat (digitsNat ip) 1)

/-- Decimal digits of a natural number. -/
def natToChars (n : Nat) : List Char := Nat.toDigits 10 n

/-- Left-pad a digit string with zeros to width `k`. -/
def padZeros (k : Nat) (ds : List Char) : List Char :=
  List.replicate (k - ds.length) '0' ++ ds

/-- JS number-to-string for the rationals this program produces (terminating
decimals): shortest decimal expansion, as float64 printing yields for these
values. The final fallback is unreachable for `parseFloat` results. -/
def ratToJs (q : Rat) : List Char :=
  let n := q.num.natAbs
  let sign : List Char := if q.num < 0 then ['-'] else []
  if q.den == 1 then sign ++ natToChars n
  else
    match (List.range 40).find? (fun k => 10 ^ (k + 1) % q.den == 0) with
    | some k0 =>
      let k := k0 + 1
      let scaled := n * 10 ^ k / q.den
      sign ++ natToChars (scaled / 10 ^ k) ++ '.' :: padZeros k (natToChars (scaled % 10 ^ k))
    | none => sign ++ natToChars n ++ '/' :: natToChars q.den

/-- `/paint/i.test(s)`. -/
def hasPaintCI (s : List Char) : Bool := subOccurs "paint".data (lowerStr s)

/-- `/\d/.test(s)`. -/
def hasDigit (s : List Char) : Bool := s.any Char.isDigit

/-- `[A-Za-z0-9]`. -/
def isAlnum (c : Char) : Bool := c.isAlpha || c.isDigit

/-- `(raw.match(/[A-Za-z]/g) || []).length`. -/
def letterCount (s : List Char) : Nat := (s.filter Char.isAlpha).length

/-- The closed unit vocabulary of the parser. -/
def unitWords : List (List Char) :=
  ["pint".data, "pints".data, "pt".data, "quart".data, "quarts".data, "qt".data,
   "gallon".data, "gallons".data, "gal".data]

/-- `/(pint|quart|gallon|pt|qt|gal)/i.test(s)` (candidate-line filter). -/
def hasUnitWordSub (s : List Char) : Bool :=
  let l := lowerStr s
  subOccurs "pint".data l || subOccurs "quart".data l || subOccurs "gallon".data l ||
  subOccurs "pt".data l || subOccurs "qt".data l || subOccurs "gal".data l

/-- The closed brand-word list filtered out of `make`. -/
def brandWords : List (List Char) :=
  ["mipa".data, "ppg".data, "basf".data, "sherwin".data, "dupont".data, "spi".data,
   "standox".data]

/-- Drop brand words (case-insensitively) from a token span. -/
def filterBrands (ts : List (List Char)) : List (List Char) :=
  ts.filter (fun t => !(brandWords.contains (lowerStr t)))

/-- `/^wa\d{3,5}$/i.test(t)`. -/
def isWaCode (t : List Char) : Bool :=
  match lowerStr t with
  | 'w' :: 'a' :: ds => decide (3 ≤ ds.length) && decide (ds.length ≤ 5) && ds.all Char.isDigit
  | _ => false

/-- `/^[A-Za-z0-9]{2,6}$/.test(t)`. -/
def isShortCode (t : List Char) : Bool :=
  decide (2 ≤ t.length) && decide (t.length ≤ 6) && t.all isAlnum

/-- `t.replace(/[^\d.]/g, "")`. -/
def cleanNum (t : List Char) : List Char := t.filter (fun c => c.isDigit || c == '.')

/-- The quantity-loop body: clean the token, `parseFloat`, accept non-`NaN`
(an empty cleaned token is also rejected, as `parseFloat("")` is `NaN`). -/
def qtyTokVal (t : List Char) : Option Rat := parseFloatPrefix (cleanNum t)

/-- The unit-loop body: exact case-insensitive match against `unitWords`,
keeping the raw token. -/
def unitTokOf (t : List Char) : Option (List Char) :=
  if unitWords.contains (lowerStr t) then some t else none

/-- `/\d+\.\d{2}/.test(t)` (unanchored): some digit, a dot and two digits
occur consecutively. -/
def hasPriceShape : List Char → Bool
  | a :: b :: c :: d :: rest =>
    (a.isDigit && b == '.' && c.isDigit && d.isDigit) || hasPriceShape (b :: c :: d :: rest)
  | _ => false

/-- `normalizeUnit` of the source. -/
def normalizeUnit (u : List Char) : List Char :=
  let l := lowerStr u
  if startsWithL "pint".data l || l == "pt".data then "Pint".data
  else if startsWithL "quart".data l || l == "qt".data then "Quart".data
  else if startsWithL "gallon".data l || l == "gal".data then "Gallon".data
  else u

/-- Token list of a line after whitespace normalisation. -/
def tokensOf (line : List Char) : List (List Char) := splitOnSpace (normWs line)

/-- Step 0 of the parser: index of the token `"paint"` (case-insensitive),
defaulting to the line start. -/
def startIdxOf (tokens : List (List Char)) : Nat :=
  match scanList (fun t => lowerStr t == "paint".data) tokens with
  | some (i, _) => i
  | none => 0

/-- Step 1: first numeric token in `[startIdx+1, min(length, startIdx+6))`. -/
def findQty (tokens : List (List Char)) (startIdx : Nat) : Option (Nat × Rat) :=
  (scanListV qtyTokVal
      ((tokens.drop (startIdx + 1)).take (min tokens.length (startIdx + 6) - (startIdx + 1)))).map
    (fun pr => (startIdx + 1 + pr.1, pr.2))

/-- Step 2: first unit token in `[qtyIdx+1, min(length, qtyIdx+4))`. -/
def findUnit (tokens : List (List Char)) (qtyIdx : Nat) : Option (Nat × List Char) :=
  (scanListV unitTokOf
      ((tokens.drop (qtyIdx + 1)).take (min tokens.length (qtyIdx + 4) - (qtyIdx + 1)))).map
    (fun pr => (qtyIdx + 1 + pr.1, pr.2))

/-- First token from position `i` to the end satisfying `p`. -/
def scanFrom (p : List Char → Bool) (tokens : List (List Char)) (i : Nat) :
    Option (Nat × List Char) :=
  (scanList p (tokens.drop i)).map (fun pr => (i + pr.1, pr.2))

/-- Step 3: the `WA`-pattern scan, then the generic short-code scan only if
the first found nothing. -/
def findCode (tokens : List (List Char)) (searchFrom : Nat) : Option (Nat × List Char) :=
  match scanFrom isWaCode tokens searchFrom with
  | some r => some r
  | none => scanFrom isShortCode tokens searchFrom

/-- JS `tokens.slice(a, b)`. -/
def sliceT (tokens : List (List Char)) (a b : Nat) : List (List Char) :=
  (tokens.drop a).take (b - a)

/-- Step 4 of the parser: derive `make`. The `else if` of the source is only
reached when the unit-to-code span is empty (`codeIdx ≤ unitIdx + 1`). -/
def makeOf (tokens : List (List Char)) (startIdx qtyIdx unitIdx : Nat)
    (codeRes : Option (Nat × List Char)) : List Char :=
  match codeRes with
  | some (codeIdx, _) =>
    if unitIdx + 1 < codeIdx then
      let filtered := filterBrands (sliceT tokens (unitIdx + 1) codeIdx)
      if filtered.isEmpty then "Unknown".data else joinSpace filtered
    else if startIdx + 1 < qtyIdx then
      let filtered := filterBrands (sliceT tokens (startIdx + 1) qtyIdx)
      if filtered.isEmpty then "Unknown".data else joinSpace filtered
    else "Unknown".data
  | none => "Unknown".data

/-- Step 5: derive `color` (everything after the code, dropping a trailing
price-shaped token). -/
def colorOf (tokens : List (List Char)) (codeRes : Option (Nat × List Char)) : List Char :=
  match codeRes with
  | some (codeIdx, _) =>
    if codeIdx + 1 < tokens.length then
      let colorTokens := tokens.drop (codeIdx + 1)
      let kept := if hasPriceShape (colorTokens.getLastD []) then colorTokens.dropLast
                  else colorTokens
      joinSpace kept
    else []
  | none => []

/-- The code token of a code-search result, `""` when absent. -/
def codeTokOf : Option (Nat × List Char) → List Char
  | some (_, t) => t
  | none => []

/-- The record returned by `parsePaintLineFlexible` (field names follow the
source's object literal). -/
structure PaintItem where
  qty : Rat
  unit : List Char
  make : List Char
  code : List Char
  color : List Char
deriving DecidableEq, Repr

/-- Assembly of the returned object once quantity and unit are anchored. -/
def buildItem (tokens : List (List Char)) (startIdx qtyIdx : Nat) (qty : Rat)
    (unitIdx : Nat) (unitTok : List Char) : PaintItem :=
  let codeRes := findCode tokens (unitIdx + 1)
  { qty := qty
    unit := jsOr (normalizeUnit unitTok) (jsOr unitTok [])
    make := jsOr (makeOf tokens startIdx qtyIdx unitIdx codeRes) "Unknown".data
    code := jsOr (codeTokOf codeRes) []
    color := jsOr (colorOf tokens codeRes) [] }

/-- `parsePaintLineFlexible` of the source. -/
def parsePaintLineFlexible (line : List Char) : Option PaintItem :=
  if hasPaintCI (normWs line) then
    match findQty (tokensOf line) (startIdxOf (tokensOf line)) with
    | none => none
    | some (qtyIdx, qty) =>
      match findUnit (tokensOf line) qtyIdx with
      | none => none
      | some (unitIdx, unitTok) =>
        some (buildItem (tokensOf line) (startIdxOf (tokensOf line)) qtyIdx qty unitIdx unitTok)
  else none

/-- `split(/\r?\n/).map(trim).filter(Boolean)`, the line pipeline shared by
the aggregator and the supplier extractor. -/
def linesOf (text : List Char) : List (List Char) :=
  ((splitLines text).map trimWs).filter (fun l => !l.isEmpty)

/-- The template literal of `formatPaintItems`. -/
def fmtItem (p : PaintItem) : List Char :=
  p.make ++ " | ".data ++ p.code ++ " | ".data ++ p.color ++ " | ".data ++
    ratToJs p.qty ++ ' ' :: p.unit

/-- One aggregator iteration: the three cheap filters, the structured parse,
and the `parsed && parsed.code` guard. -/
def lineItemOf (l : List Char) : Option (List Char) :=
  if hasPaintCI l then
    if hasDigit l then
      if hasUnitWordSub l then
        match parsePaintLineFlexible l with
        | some p => if p.code.isEmpty then none else some (fmtItem p)
        | none => none
      else none
    else none
  else none

/-- `formatPaintItems` of the source (joining the empty list gives `""`,
matching the explicit length check of the source). -/
def formatPaintItems (text : List Char) : List Char :=
  joinNL ((linesOf text).filterMap lineItemOf)

/-- `extractPaintLinesFallback` of the source. -/
def extractPaintLinesFallback (text : List Char) : List Char :=
  joinNL ((linesOf text).filter hasPaintCI)

/-- The `notes` field of the handler:
`formatPaintItems(text) || extractPaintLinesFallback(text) || text.slice(0, 800)`. -/
def notesOf (text : List Char) : List Char :=
  jsOr (formatPaintItems text) (jsOr (extractPaintLinesFallback text) (text.take 800))

/-- The supplier skip-list test (`"ga"` is the address-locality fragment). -/
def skipLine (l : List Char) : Bool :=
  let low := lowerStr l
  subOccurs "invoice".data low || subOccurs "bill to".data low || subOccurs "ship to".data low ||
  subOccurs "date".data low || subOccurs "total".data low || subOccurs "www".data low ||
  subOccurs ".com".data low || subOccurs "ga".data low

/-- A line the supplier loop returns: not skipped and at least four letters. -/
def supplierOk (l : List Char) : Bool := !skipLine l && decide (4 ≤ letterCount l)

/-- `extractSupplier` of the source: the loop over the first ten non-empty
trimmed lines, with `continue` for skipped or letter-poor lines, is the first
match of `supplierOk`; the fall-through returns `""`. -/
def extractSupplier (text : List Char) : List Char :=
  match scanList supplierOk ((linesOf text).take 10) with
  | some (_, l) => l
  | none => []

/-- Case-insensitive literal matcher: `lit` (given lower-case) against the
head of `s`; returns the rest on success. -/
def matchLitCI : List Char → List Char → Option (List Char)
  | [], s => some s
  | _ :: _, [] => none
  | l :: ls, c :: cs => if c.toLower == l then matchLitCI ls cs else none

/-- `\$?`. -/
def skipDollar : List Char → List Char
  | '$' :: t => t
  | s => s

/-- `([\d,]+\.\d{2})` at the head of `s`, returning the captured text. The
greedy digit-comma run is forced: a shorter run is followed by a digit or a
comma, never by the required dot, so no backtracking alternative exists. -/
def matchAmount (s : List Char) : Option (List Char) :=
  let run := s.takeWhile (fun c => c.isDigit || c == ',')
  if run.isEmpty then none
  else
    match s.drop run.length with
    | '.' :: d1 :: d2 :: _ =>
      if d1.isDigit && d2.isDigit then some (run ++ '.' :: [d1, d2]) else none
    | _ => none

/-- `\s*\$?\s*` then the amount capture. The three pieces consume disjoint
character classes, so greedy matching is deterministic. -/
def amountTail (r : List Char) : Option (List Char) :=
  matchAmount ((skipDollar (r.dropWhile jsWs)).dropWhile jsWs)

/-- `/Total\s*\$?\s*([\d,]+\.\d{2})/i` anchored at the head of `s`. -/
def totalPatAt (s : List Char) : Option (List Char) :=
  (matchLitCI "total".data s).bind amountTail

/-- `/(amount due|balance due)\s*\$?\s*([\d,]+\.\d{2})/i` anchored at the
head of `s` (the alternatives differ in their first character, so trying them
in order is exact); returns the amount capture. -/
def duePatAt (s : List Char) : Option (List Char) :=
  (match matchLitCI "amount due".data s with
   | some r => some r
   | none => matchLitCI "balance due".data s).bind amountTail

/-- Unanchored regex search: leftmost start position wins, as in JS `match`. -/
def searchPat (f : List Char → Option (List Char)) : List Char → Option (List Char)
  | [] => f []
  | c :: rest =>
    match f (c :: rest) with
    | some r => some r
    | none => searchPat f rest

/-- `replace(/,/g, "")`. -/
def stripCommas (s : List Char) : List Char := s.filter (fun c => !(c == ','))

/-- `extractTotal` of the source. The captured amount always parses (it is
digits and one dot after comma removal), so the `getD` default is dead. -/
def extractTotal (text : List Char) : Option Rat :=
  match searchPat totalPatAt text with
  | some cap => some ((parseFloatPrefix (stripCommas cap)).getD 0)
  | none =>
    match searchPat duePatAt text with
    | some cap => some ((parseFloatPrefix (stripCommas cap)).getD 0)
    | none => none

/-- `/Invoice\s*#\s*([0-9]+)/i` anchored at the head of `s`: the digit run is
maximal (nothing follows it in the pattern). -/
def invNumPatAt (s : List Char) : Option (List Char) :=
  (matchLitCI "invoice".data s).bind fun r =>
    match r.dropWhile jsWs with
    | '#' :: r2 =>
      let ds := (r2.dropWhile jsWs).takeWhile Char.isDigit
      if ds.isEmpty then none else some ds
    | _ => none

/-- `extractInvoiceNumber` of the source (the fallback searches the raw,
untrimmed lines for the substring `"invoice"`). -/
def extractInvoiceNumber (text : List Char) : List Char :=
  match searchPat invNumPatAt text with
  | some ds => ds
  | none =>
    match (splitLines text).find? (fun l => subOccurs "invoice".data (lowerStr l)) with
    | some l => jsOr l []
    | none => []

/-- A `scanList` hit is in range, returns the token at its index, satisfies
the predicate, and is the leftmost such position. -/
theorem scanList_some_spec (p : List Char → Bool) :
    ∀ (l : List (List Char)) (j : Nat) (t : List Char),
      scanList p l = some (j, t) →
      j < l.length ∧ l.getD j [] = t ∧ p t = true ∧
        ∀ k, k < j → p (l.getD k []) = false := by
  intro l
  induction l with
  | nil => intro j t h; simp [scanList] at h
  | cons a as ih =>
    intro j t h
    by_cases hp : p a = true
    · rw [scanList, if_pos hp] at h
      obtain ⟨hj, ht⟩ := Prod.mk.injEq .. ▸ Option.some.inj h
      subst hj; subst ht
      exact ⟨Nat.succ_pos _, rfl, hp, fun k hk => absurd hk (Nat.not_lt_zero k)⟩
    · rw [scanList, if_neg hp] at h
      obtain ⟨⟨j', t'⟩, hscan, heq⟩ := Option.map_eq_some'.mp h
      obtain ⟨hj, ht⟩ := Prod.mk.injEq .. ▸ heq
      subst hj; subst ht
      obtain ⟨hlt, hget, hpt, hmin⟩ := ih j' t' hscan
      refine ⟨Nat.succ_lt_succ hlt, hget, hpt, ?_⟩
      intro k hk
      cases k with
      | zero => simpa using Bool.of_not_eq_true hp
      | succ k => exact hmin k (Nat.lt_of_succ_lt_succ hk)

/-- `scanList` misses exactly when no element satisfies the predicate. -/
theorem scanList_eq_none_iff (p : List Char → Bool) :
    ∀ (l : List (List Char)), scanList p l = none ↔ ∀ t ∈ l, p t = false := by
  intro l
  induction l with
  | nil => simp [scanList]
  | cons a as ih =>
    by_cases hp : p a = true
    · simp [scanList, hp]
    · simp only [scanList, if_neg hp, Option.map_eq_none', ih, List.mem_cons]
      constructor
      · intro hall t ht
        rcases ht with h | h
        · subst h; exact Bool.of_not_eq_true hp
        · exact hall t h
      · intro hall t ht; exact hall t (Or.inr ht)

/-- A `scanListV` hit is in range, its value comes from the token at its
index, and every earlier token is rejected. -/
theorem scanListV_some_spec {β : Type} (f : List Char → Option β) :
    ∀ (l : List (List Char)) (j : Nat) (b : β),
      scanListV f l = some (j, b) →
      j < l.length ∧ f (l.getD j []) = some b ∧
        ∀ k, k < j → f (l.getD k []) = none := by
  intro l
  induction l with
  | nil => intro j b h; simp [scanListV] at h
  | cons a as ih =>
    intro j b h
    cases hf : f a with
    | some b0 =>
      rw [scanListV, hf] at h
      obtain ⟨hj, hb⟩ := Prod.mk.injEq .. ▸ Option.some.inj h
      subst hj; subst hb
      exact ⟨Nat.succ_pos _, hf, fun k hk => absurd hk (Nat.not_lt_zero k)⟩
    | none =>
      rw [scanListV, hf] at h
      obtain ⟨⟨j', b'⟩, hscan, heq⟩ := Option.map_eq_some'.mp h
      obtain ⟨hj, hb⟩ := Prod.mk.injEq .. ▸ heq
      subst hj; subst hb
      obtain ⟨hlt, hget, hmin⟩ := ih j' b' hscan
      refine ⟨Nat.succ_lt_succ hlt, hget, ?_⟩
      intro k hk
      cases k with
      | zero => exact hf
      | succ k => exact hmin k (Nat.lt_of_succ_lt_succ hk)

/-- `scanListV` misses exactly when every token is rejected. -/
theorem scanListV_eq_none_iff {β : Type} (f : List Char → Option β) :
    ∀ (l : List (List Char)), scanListV f l = none ↔ ∀ t ∈ l, f t = none := by
  intro l
  induction l with
  | nil => simp [scanListV]
  | cons a as ih =>
    cases hf : f a with
    | some b0 => simp [scanListV, hf]
    | none =>
      simp only [scanListV, hf, Option.map_eq_none', ih, List.mem_cons]
      constructor
      · intro hall t ht
        rcases ht with h | h
        · subst h; exact hf
        · exact hall t h
      · intro hall t ht; exact hall t (Or.inr ht)

/-- Indexing into a dropped list, with default. -/
theorem getD_drop (l : List (List Char)) :
    ∀ (i k : Nat), (l.drop i).getD k [] = l.getD (i + k) [] := by
  induction l with
  | nil => intro i k; simp
  | cons a as ih =>
    intro i k
    cases i with
    | zero => simp
    | succ i =>
      show (as.drop i).getD k [] = (a :: as).getD (i + 1 + k) []
      rw [ih i k]
      have : i + 1 + k = (i + k) + 1 := by omega
      rw [this]
      rfl

/-- Inversion of the parser: a returned item records a paint keyword hit, a
quantity anchor, a unit anchor, and is the assembled record. -/
theorem parse_eq_some_inv (line : List Char) (item : PaintItem)
    (h : parsePaintLineFlexible line = some item) :
    hasPaintCI (normWs line) = true ∧
    ∃ qtyIdx qty unitIdx unitTok,
      findQty (tokensOf line) (startIdxOf (tokensOf line)) = some (qtyIdx, qty) ∧
      findUnit (tokensOf line) qtyIdx = some (unitIdx, unitTok) ∧
      item = buildItem (tokensOf line) (startIdxOf (tokensOf line)) qtyIdx qty unitIdx unitTok := by
  unfold parsePaintLineFlexible at h
  split at h
  · rename_i hp
    refine ⟨hp, ?_⟩
    split at h
    · exact absurd h (by simp)
    · rename_i qtyIdx qty hq
      split at h
      · exact absurd h (by simp)
      · rename_i unitIdx unitTok hu
        exact ⟨qtyIdx, qty, unitIdx, unitTok, hq, hu, (Option.some.inj h).symm⟩
  · exact absurd h (by simp)

/-- The parser in the successful direction: with all three anchors in hand it
returns the assembled record. -/
theorem parse_eq_some_of_anchors (line : List Char) (qtyIdx : Nat) (qty : Rat)
    (unitIdx : Nat) (unitTok : List Char)
    (hp : hasPaintCI (normWs line) = true)
    (hq : findQty (tokensOf line) (startIdxOf (tokensOf line)) = some (qtyIdx, qty))
    (hu : findUnit (tokensOf line) qtyIdx = some (unitIdx, unitTok)) :
    parsePaintLineFlexible line =
      some (buildItem (tokensOf line) (startIdxOf (tokensOf line)) qtyIdx qty unitIdx unitTok) := by
  unfold parsePaintLineFlexible
  rw [if_pos hp, hq]
  dsimp only
  rw [hu]

/-- C1: the Paint Line Item Parser and the header extractors
(`extractSupplier`, `extractInvoiceNumber`, `extractTotal`) are total
functions of the input string, and on empty, whitespace-only or garbage
input each returns its well-formed default (`none` = "no item", the empty
string, or `null`) rather than failing. -/
theorem extractors_total_on_any_input :
    (∀ s : List Char,
      parsePaintLineFlexible s = none ∨ ∃ it, parsePaintLineFlexible s = some it) ∧
    parsePaintLineFlexible [] = none ∧
    parsePaintLineFlexible "   ".data = none ∧
    parsePaintLineFlexible "@#$%^&* \x01\x02 1234".data = none ∧
    extractSupplier [] = [] ∧
    extractSupplier " \n\t ".data = [] ∧
    extractSupplier "@#$%^&* \x01\x02 1234".data = [] ∧
    extractInvoiceNumber [] = [] ∧
    extractInvoiceNumber " \n\t ".data = [] ∧
    extractInvoiceNumber "@#$%^&* \x01\x02 1234".data = [] ∧
    extractTotal [] = none ∧
    extractTotal " \n\t ".data = none ∧
    extractTotal "@#$%^&* \x01\x02 1234".data = none := by
  refine ⟨fun s => ?_, by decide, by decide, by decide, by decide, by decide, by decide,
    by decide, by decide, by decide, by decide, by decide, by decide⟩
  cases h : parsePaintLineFlexible s with
  | none => exact Or.inl rfl
  | some it => exact Or.inr ⟨it, rfl⟩

/-- C2: a line that contains the keyword "paint" (case-insensitively) but in
which the bounded look-ahead window after the keyword anchor holds no token
parseable as a number is rejected: the parser returns "no item" (`none`). -/
theorem paint_without_quantity_no_item (line : List Char)
    (hp : hasPaintCI (normWs line) = true)
    (hq : findQty (tokensOf line) (startIdxOf (tokensOf line)) = none) :
    parsePaintLineFlexible line = none := by
  unfold parsePaintLineFlexible
  rw [if_pos hp, hq]

/-- C2 witness: `"Paint Job Special"` contains the keyword, has no numeric
token, and parses to no item. -/
theorem paint_without_quantity_no_item_witness :
    hasPaintCI (normWs "Paint Job Special".data) = true ∧
    findQty (tokensOf "Paint Job Special".data)
      (startIdxOf (tokensOf "Paint Job Special".data)) = none ∧
    parsePaintLineFlexible "Paint Job Special".data = none :=
  ⟨by decide, by decide, paint_without_quantity_no_item _ (by decide) (by decide)⟩

/-- C3: on `"Paint 0.5 Pint GM/CHEV WA8624 WHITE 85-26"` the parser returns
exactly make `"GM/CHEV"`, code `"WA8624"`, color `"WHITE 85-26"`, quantity
`0.5`, unit `"Pint"`. -/
theorem parse_anchor_precedence_example :
    parsePaintLineFlexible "Paint 0.5 Pint GM/CHEV WA8624 WHITE 85-26".data =
      some { qty := (0.5 : Rat), unit := "Pint".data, make := "GM/CHEV".data,
             code := "WA8624".data, color := "WHITE 85-26".data } := by
  have h05 : (0.5 : Rat) = mkRat 1 2 := by norm_num [Rat.mkRat_eq_div]
  rw [h05]
  decide

/-- `startsWithL` characterised as prefix decomposition. -/
theorem startsWithL_eq_true_iff (p : List Char) :
    ∀ s, startsWithL p s = true ↔ ∃ r, s = p ++ r := by
  induction p with
  | nil => intro s; simp [startsWithL]
  | cons a as ih =>
    intro s
    cases s with
    | nil => simp [startsWithL]
    | cons b bs =>
      simp only [startsWithL, Bool.and_eq_true, beq_iff_eq, ih, List.cons_append]
      constructor
      · rintro ⟨hab, r, hr⟩
        exact ⟨r, by rw [hab, hr]⟩
      · rintro ⟨r, hr⟩
        injection hr with h1 h2
        exact ⟨h1.symm, r, h2⟩

/-- A token whose lower-casing is in the unit vocabulary normalises to a
canonical unit name. -/
theorem normalizeUnit_of_unitWord (ut : List Char)
    (h : unitWords.contains (lowerStr ut) = true) :
    normalizeUnit ut = "Pint".data ∨ normalizeUnit ut = "Quart".data ∨
      normalizeUnit ut = "Gallon".data := by
  have hmem : lowerStr ut ∈ unitWords := List.elem_iff.mp (by simpa [List.contains] using h)
  simp only [unitWords, List.mem_cons, List.not_mem_nil, or_false] at hmem
  rcases hmem with hx | hx | hx | hx | hx | hx | hx | hx | hx
  · exact Or.inl (by simp only [normalizeUnit]; rw [hx, if_pos (by decide)])
  · exact Or.inl (by simp only [normalizeUnit]; rw [hx, if_pos (by decide)])
  · exact Or.inl (by simp only [normalizeUnit]; rw [hx, if_pos (by decide)])
  · exact Or.inr (Or.inl
      (by simp only [normalizeUnit]; rw [hx, if_neg (by decide), if_pos (by decide)]))
  · exact Or.inr (Or.inl
      (by simp only [normalizeUnit]; rw [hx, if_neg (by decide), if_pos (by decide)]))
  · exact Or.inr (Or.inl
      (by simp only [normalizeUnit]; rw [hx, if_neg (by decide), if_pos (by decide)]))
  · exact Or.inr (Or.inr (by
      simp only [normalizeUnit]
      rw [hx, if_neg (by decide), if_neg (by decide), if_pos (by decide)]))
  · exact Or.inr (Or.inr (by
      simp only [normalizeUnit]
      rw [hx, if_neg (by decide), if_neg (by decide), if_pos (by decide)]))
  · exact Or.inr (Or.inr (by
      simp only [normalizeUnit]
      rw [hx, if_neg (by decide), if_neg (by decide), if_pos (by decide)]))

/-- A unit-scan hit records a token of the closed unit vocabulary. -/
theorem findUnit_token_in_vocab (tokens : List (List Char)) (qtyIdx unitIdx : Nat)
    (unitTok : List Char)
    (hu : findUnit tokens qtyIdx = some (unitIdx, unitTok)) :
    unitWords.contains (lowerStr unitTok) = true := by
  unfold findUnit at hu
  obtain ⟨⟨j, b⟩, hscan, heq⟩ := Option.map_eq_some'.mp hu
  obtain ⟨hj, hb⟩ := Prod.mk.injEq .. ▸ heq
  subst hb
  obtain ⟨hlt, hget, hmin⟩ := scanListV_some_spec unitTokOf _ j b hscan
  unfold unitTokOf at hget
  split at hget
  · rename_i hc
    rw [Option.some.inj hget] at hc
    exact hc
  · exact absurd hget (by simp)

/-- C10 (implicit invariant): every item the Paint Line Item Parser returns
has unit exactly one of `"Pint"`, `"Quart"`, `"Gallon"`; the raw-token escape
of `normalizeUnit` is unreachable because the unit anchor only accepts the
closed vocabulary. -/
theorem parsed_unit_canonical (line : List Char) (item : PaintItem)
    (h : parsePaintLineFlexible line = some item) :
    item.unit = "Pint".data ∨ item.unit = "Quart".data ∨ item.unit = "Gallon".data := by
  obtain ⟨hp, qtyIdx, qty, unitIdx, unitTok, hq, hu, hitem⟩ := parse_eq_some_inv line item h
  have hvocab := findUnit_token_in_vocab _ _ _ _ hu
  have hunit : item.unit = jsOr (normalizeUnit unitTok) (jsOr unitTok []) := by
    rw [hitem]; simp only [buildItem]
  rcases normalizeUnit_of_unitWord unitTok hvocab with hn | hn | hn
  · exact Or.inl (by rw [hunit, hn]; simp [jsOr])
  · exact Or.inr (Or.inl (by rw [hunit, hn]; simp [jsOr]))
  · exact Or.inr (Or.inr (by rw [hunit, hn]; simp [jsOr]))

/-- C10 witness: `"Paint 2 qt k3g"` parses to an item whose unit is the
canonical `"Quart"`. -/
theorem parsed_unit_canonical_witness :
    (⟨mkRat 2 1, "Quart".data, "Unknown".data, "k3g".data, []⟩ : PaintItem).unit = "Pint".data ∨
    (⟨mkRat 2 1, "Quart".data, "Unknown".data, "k3g".data, []⟩ : PaintItem).unit = "Quart".data ∨
    (⟨mkRat 2 1, "Quart".data, "Unknown".data, "k3g".data, []⟩ : PaintItem).unit = "Gallon".data :=
  parsed_unit_canonical "Paint 2 qt k3g".data
    ⟨mkRat 2 1, "Quart".data, "Unknown".data, "k3g".data, []⟩ (by decide)

/-- C9: the unit normaliser case-folds and matches by prefix — `pint*`/`pt`
map to `"Pint"`, `quart*`/`qt` to `"Quart"`, `gallon*`/`gal` to `"Gallon"` —
and every unrecognised token is returned unchanged. -/
theorem normalizeUnit_prefix_rules (u : List Char) :
    ((startsWithL "pint".data (lowerStr u) = true ∨ lowerStr u = "pt".data) →
        normalizeUnit u = "Pint".data) ∧
    ((startsWithL "quart".data (lowerStr u) = true ∨ lowerStr u = "qt".data) →
        normalizeUnit u = "Quart".data) ∧
    ((startsWithL "gallon".data (lowerStr u) = true ∨ lowerStr u = "gal".data) →
        normalizeUnit u = "Gallon".data) ∧
    (¬(startsWithL "pint".data (lowerStr u) = true ∨ lowerStr u = "pt".data) →
     ¬(startsWithL "quart".data (lowerStr u) = true ∨ lowerStr u = "qt".data) →
     ¬(startsWithL "gallon".data (lowerStr u) = true ∨ lowerStr u = "gal".data) →
        normalizeUnit u = u) := by
  refine ⟨?_, ?_, ?_, ?_⟩
  · intro h
    have hc : (startsWithL "pint".data (lowerStr u) || lowerStr u == "pt".data) = true := by
      rcases h with h | h <;> simp [h]
    simp only [normalizeUnit]; rw [if_pos hc]
  · intro h
    have h2 : (startsWithL "quart".data (lowerStr u) || lowerStr u == "qt".data) = true := by
      rcases h with h | h <;> simp [h]
    have h1 : (startsWithL "pint".data (lowerStr u) || lowerStr u == "pt".data) = false := by
      rcases h with h | h
      · obtain ⟨r, hr⟩ := (startsWithL_eq_true_iff _ _).mp h
        rw [hr]; rfl
      · rw [h]; rfl
    simp only [normalizeUnit]; rw [if_neg (by simp [h1]), if_pos h2]
  · intro h
    have h3 : (startsWithL "gallon".data (lowerStr u) || lowerStr u == "gal".data) = true := by
      rcases h with h | h <;> simp [h]
    have h1 : (startsWithL "pint".data (lowerStr u) || lowerStr u == "pt".data) = false := by
      rcases h with h | h
      · obtain ⟨r, hr⟩ := (startsWithL_eq_true_iff _ _).mp h
        rw [hr]; rfl
      · rw [h]; rfl
    have h2 : (startsWithL "quart".data (lowerStr u) || lowerStr u == "qt".data) = false := by
      rcases h with h | h
      · obtain ⟨r, hr⟩ := (startsWithL_eq_true_iff _ _).mp h
        rw [hr]; rfl
      · rw [h]; rfl
    simp only [normalizeUnit]; rw [if_neg (by simp [h1]), if_neg (by simp [h2]), if_pos h3]
  · intro hn1 hn2 hn3
    have c1 : (startsWithL "pint".data (lowerStr u) || lowerStr u == "pt".data) = false := by
      cases hA : startsWithL "pint".data (lowerStr u) with
      | true => exact absurd (Or.inl hA) hn1
      | false =>
        cases hB : lowerStr u == "pt".data with
        | true => exact absurd (Or.inr (by simpa using hB)) hn1
        | false => rfl
    have c2 : (startsWithL "quart".data (lowerStr u) || lowerStr u == "qt".data) = false := by
      cases hA : startsWithL "quart".data (lowerStr u) with
      | true => exact absurd (Or.inl hA) hn2
      | false =>
        cases hB : lowerStr u == "qt".data with
        | true => exact absurd (Or.inr (by simpa using hB)) hn2
        | false => rfl
    have c3 : (startsWithL "gallon".data (lowerStr u) || lowerStr u == "gal".data) = false := by
      cases hA : startsWithL "gallon".data (lowerStr u) with
      | true => exact absurd (Or.inl hA) hn3
      | false =>
        cases hB : lowerStr u == "gal".data with
        | true => exact absurd (Or.inr (by simpa using hB)) hn3
        | false => rfl
    simp only [normalizeUnit]
    rw [if_neg (by simp [c1]), if_neg (by simp [c2]), if_neg (by simp [c3])]

/-- C9 witness: `"Pints"` (mixed case, plural) normalises to `"Pint"` and the
unrecognised token `"liter"` is returned unchanged. -/
theorem normalizeUnit_prefix_rules_witness :
    normalizeUnit "Pints".data = "Pint".data ∧ normalizeUnit "liter".data = "liter".data :=
  ⟨(normalizeUnit_prefix_rules "Pints".data).1 (Or.inl (by decide)),
   (normalizeUnit_prefix_rules "liter".data).2.2.2 (by decide) (by decide) (by decide)⟩

/-- A `scanFrom` hit is the leftmost position at or after the start index
whose token satisfies the predicate. -/
theorem scanFrom_some_spec (p : List Char → Bool) (tokens : List (List Char)) (i j : Nat)
    (t : List Char) (h : scanFrom p tokens i = some (j, t)) :
    i ≤ j ∧ j < tokens.length ∧ tokens.getD j [] = t ∧ p t = true ∧
      ∀ k, i ≤ k → k < j → p (tokens.getD k []) = false := by
  unfold scanFrom at h
  obtain ⟨⟨j', t'⟩, hscan, heq⟩ := Option.map_eq_some'.mp h
  obtain ⟨hj, ht⟩ := Prod.mk.injEq .. ▸ heq
  subst hj; subst ht
  obtain ⟨hlt, hget, hpt, hmin⟩ := scanList_some_spec p _ j' t' hscan
  rw [List.length_drop] at hlt
  rw [getD_drop] at hget
  refine ⟨Nat.le_add_right i j', by omega, hget, hpt, ?_⟩
  intro k hik hkj
  have hk : k = i + (k - i) := by omega
  rw [hk]
  rw [← getD_drop]
  exact hmin (k - i) (by omega)

/-- A defaulted lookup at an in-range index is a member of the list. -/
theorem getD_mem_of_lt (l : List (List Char)) (n : Nat) (h : n < l.length) :
    l.getD n [] ∈ l := by
  rw [List.getD_eq_getElem l [] h]
  exact List.getElem_mem h

/-- `scanFrom` misses exactly when no token at or after the start index
satisfies the predicate. -/
theorem scanFrom_none_iff (p : List Char → Bool) (tokens : List (List Char)) (i : Nat) :
    scanFrom p tokens i = none ↔
      ∀ j, i ≤ j → j < tokens.length → p (tokens.getD j []) = false := by
  unfold scanFrom
  rw [Option.map_eq_none']
  rw [scanList_eq_none_iff]
  constructor
  · intro hall j hij hjl
    have hj : j = i + (j - i) := by omega
    rw [hj, ← getD_drop]
    exact hall _ (getD_mem_of_lt _ _ (by rw [List.length_drop]; omega))
  · intro hall t ht
    obtain ⟨n, hn, hget⟩ := List.mem_iff_getElem.mp ht
    rw [← hget, ← List.getD_eq_getElem (tokens.drop i) [] hn, getD_drop]
    exact hall (i + n) (Nat.le_add_right i n) (by rw [List.length_drop] at hn; omega)

/-- If some position at or after the start satisfies the predicate,
`scanFrom` hits. -/
theorem scanFrom_isSome_of_exists (p : List Char → Bool) (tokens : List (List Char)) (i : Nat)
    (h : ∃ j, i ≤ j ∧ j < tokens.length ∧ p (tokens.getD j []) = true) :
    ∃ j t, scanFrom p tokens i = some (j, t) := by
  cases hs : scanFrom p tokens i with
  | some r => obtain ⟨j, t⟩ := r; exact ⟨j, t, rfl⟩
  | none =>
    obtain ⟨j, hij, hjl, hpj⟩ := h
    rw [(scanFrom_none_iff p tokens i).mp hs j hij hjl] at hpj
    exact absurd hpj (by simp)

/-- C5: the product-code search returns the first `WA`-pattern token after
the unit whenever one exists anywhere in the remainder of the line, and it
falls back to the first generic 2–6-character alphanumeric token only when
the remainder holds zero `WA`-pattern tokens. -/
theorem findCode_prefers_wa_then_generic (tokens : List (List Char)) (start : Nat) :
    ((∃ j, start ≤ j ∧ j < tokens.length ∧ isWaCode (tokens.getD j []) = true) →
      ∃ i, findCode tokens start = some (i, tokens.getD i []) ∧ start ≤ i ∧
        i < tokens.length ∧ isWaCode (tokens.getD i []) = true ∧
        ∀ k, start ≤ k → k < i → isWaCode (tokens.getD k []) = false) ∧
    ((∀ j, start ≤ j → j < tokens.length → isWaCode (tokens.getD j []) = false) →
     (∃ j, start ≤ j ∧ j < tokens.length ∧ isShortCode (tokens.getD j []) = true) →
      ∃ i, findCode tokens start = some (i, tokens.getD i []) ∧ start ≤ i ∧
        i < tokens.length ∧ isShortCode (tokens.getD i []) = true ∧
        ∀ k, start ≤ k → k < i → isShortCode (tokens.getD k []) = false) := by
  constructor
  · intro hex
    obtain ⟨i0, t0, hsf⟩ := scanFrom_isSome_of_exists isWaCode tokens start hex
    obtain ⟨hle, hlt, hget, hp, hmin⟩ := scanFrom_some_spec isWaCode tokens start i0 t0 hsf
    refine ⟨i0, ?_, hle, hlt, by rw [hget]; exact hp, hmin⟩
    unfold findCode
    rw [hsf, hget]
  · intro hall hex
    have hnone : scanFrom isWaCode tokens start = none :=
      (scanFrom_none_iff isWaCode tokens start).mpr hall
    obtain ⟨i0, t0, hsf⟩ := scanFrom_isSome_of_exists isShortCode tokens start hex
    obtain ⟨hle, hlt, hget, hp, hmin⟩ := scanFrom_some_spec isShortCode tokens start i0 t0 hsf
    refine ⟨i0, ?_, hle, hlt, by rw [hget]; exact hp, hmin⟩
    unfold findCode
    rw [hnone, hsf, hget]

/-- C5 witness: with a `WA` token present the search lands on it
(`["xx", "WA123", "ab"]` from index 0), and with none present the first
generic short code wins (`["zz", "k3g"]` from index 0). -/
theorem findCode_prefers_wa_then_generic_witness :
    (∃ i, findCode ["xx".data, "WA123".data, "ab".data] 0 =
        some (i, (["xx".data, "WA123".data, "ab".data]).getD i []) ∧ 0 ≤ i ∧
        i < (["xx".data, "WA123".data, "ab".data] : List (List Char)).length ∧
        isWaCode ((["xx".data, "WA123".data, "ab".data]).getD i []) = true ∧
        ∀ k, 0 ≤ k → k < i →
          isWaCode ((["xx".data, "WA123".data, "ab".data]).getD k []) = false) ∧
    (∃ i, findCode ["zz".data, "k3g".data] 0 =
        some (i, (["zz".data, "k3g".data]).getD i []) ∧ 0 ≤ i ∧
        i < (["zz".data, "k3g".data] : List (List Char)).length ∧
        isShortCode ((["zz".data, "k3g".data]).getD i []) = true ∧
        ∀ k, 0 ≤ k → k < i →
          isShortCode ((["zz".data, "k3g".data]).getD k []) = false) :=
  ⟨(findCode_prefers_wa_then_generic ["xx".data, "WA123".data, "ab".data] 0).1
      ⟨1, by decide, by decide, by decide⟩,
   (findCode_prefers_wa_then_generic ["zz".data, "k3g".data] 0).2
      (by
        intro j h0 h2
        have hj : j < 2 := by simpa using h2
        interval_cases j <;> decide)
      ⟨0, by decide, by decide, by decide⟩⟩

/-- Every token surviving the brand filter is a non-brand word. -/
theorem filterBrands_no_brand (ts : List (List Char)) :
    ∀ t ∈ filterBrands ts, brandWords.contains (lowerStr t) = false := by
  intro t ht
  have h := List.mem_filter.mp ht
  simpa using h.2

/-- `makeOf` yields `"Unknown"` or the space-join of a brand-filtered span. -/
theorem makeOf_unknown_or_filtered (tokens : List (List Char)) (sI qI uI : Nat)
    (codeRes : Option (Nat × List Char)) :
    makeOf tokens sI qI uI codeRes = "Unknown".data ∨
      ∃ ts, (∀ t ∈ ts, brandWords.contains (lowerStr t) = false) ∧
        makeOf tokens sI qI uI codeRes = joinSpace ts := by
  match codeRes with
  | none => exact Or.inl rfl
  | some (cIdx, ct) =>
    simp only [makeOf]
    by_cases h1 : uI + 1 < cIdx
    · rw [if_pos h1]
      by_cases h2 : (filterBrands (sliceT tokens (uI + 1) cIdx)).isEmpty = true
      · rw [if_pos h2]; exact Or.inl rfl
      · rw [if_neg h2]
        exact Or.inr ⟨_, filterBrands_no_brand _, rfl⟩
    · rw [if_neg h1]
      by_cases h0 : sI + 1 < qI
      · rw [if_pos h0]
        by_cases h2 : (filterBrands (sliceT tokens (sI + 1) qI)).isEmpty = true
        · rw [if_pos h2]; exact Or.inl rfl
        · rw [if_neg h2]
          exact Or.inr ⟨_, filterBrands_no_brand _, rfl⟩
      · rw [if_neg h0]; exact Or.inl rfl

/-- C4 counterexample: on `"Paint GM 1 Pint MIPA WA8624 WHITE"` the
unit-to-code span (indices 4..5) is nonempty but filters to empty — it is
exactly the brand word — while the keyword-to-quantity span (indices 1..2)
filters to `["GM"]`; the claim therefore prescribes make `"GM"`, but the
parser returns make `"Unknown"`: the filtered-to-empty case does not fall
back. -/
theorem make_fallback_counterexample :
    parsePaintLineFlexible "Paint GM 1 Pint MIPA WA8624 WHITE".data =
      some { qty := mkRat 1 1, unit := "Pint".data, make := "Unknown".data,
             code := "WA8624".data, color := "WHITE".data } ∧
    findCode (tokensOf "Paint GM 1 Pint MIPA WA8624 WHITE".data) 4 =
      some (5, "WA8624".data) ∧
    filterBrands (sliceT (tokensOf "Paint GM 1 Pint MIPA WA8624 WHITE".data) 4 5) = [] ∧
    filterBrands (sliceT (tokensOf "Paint GM 1 Pint MIPA WA8624 WHITE".data) 1 2) =
      ["GM".data] ∧
    "Unknown".data ≠ joinSpace ["GM".data] := by
  refine ⟨by decide, by decide, by decide, by decide, by decide⟩

/-- C4 amended: when a product code is found, `make` is the brand-filtered
unit-to-code span if that span is nonempty and survives the filter; the
brand-filtered keyword-to-quantity span is consulted only when the raw
unit-to-code span is empty (code index ≤ unit index + 1), not when it merely
filters to empty; in every remaining case `make` is `"Unknown"`. Brand words
never appear in `make`. -/
theorem make_from_spans (line : List Char) (sI qI uI cI : Nat) (q : Rat)
    (ut ct : List Char)
    (hp : hasPaintCI (normWs line) = true)
    (hs : startIdxOf (tokensOf line) = sI)
    (hq : findQty (tokensOf line) sI = some (qI, q))
    (hu : findUnit (tokensOf line) qI = some (uI, ut))
    (hc : findCode (tokensOf line) (uI + 1) = some (cI, ct)) :
    ∃ item, parsePaintLineFlexible line = some item ∧
      item.make = jsOr
        (if uI + 1 < cI then
          (if (filterBrands (sliceT (tokensOf line) (uI + 1) cI)).isEmpty then "Unknown".data
           else joinSpace (filterBrands (sliceT (tokensOf line) (uI + 1) cI)))
         else if sI + 1 < qI then
          (if (filterBrands (sliceT (tokensOf line) (sI + 1) qI)).isEmpty then "Unknown".data
           else joinSpace (filterBrands (sliceT (tokensOf line) (sI + 1) qI)))
         else "Unknown".data)
        "Unknown".data ∧
      (item.make = "Unknown".data ∨
        ∃ ts, (∀ t ∈ ts, brandWords.contains (lowerStr t) = false) ∧
          item.make = joinSpace ts) := by
  have hparse := parse_eq_some_of_anchors line qI q uI ut hp (by rw [hs]; exact hq) hu
  have hmakeeq : (buildItem (tokensOf line) (startIdxOf (tokensOf line)) qI q uI ut).make =
      jsOr (makeOf (tokensOf line) (startIdxOf (tokensOf line)) qI uI
        (findCode (tokensOf line) (uI + 1))) "Unknown".data := by
    simp only [buildItem]
  refine ⟨_, hparse, ?_, ?_⟩
  · rw [hmakeeq, hs, hc]
    simp only [makeOf]
  · rw [hmakeeq, hs, hc]
    rcases makeOf_unknown_or_filtered (tokensOf line) sI qI uI (some (cI, ct)) with
      hmk | ⟨ts, hts, hmk⟩
    · rw [hmk]; left; decide
    · by_cases hemp : (joinSpace ts).isEmpty = true
      · left; rw [hmk]; unfold jsOr; rw [if_pos hemp]
      · right; exact ⟨ts, hts, by rw [hmk]; unfold jsOr; rw [if_neg hemp]⟩

/-- C4 amended witness: on `"Paint 1 Pint MIPA GM/CHEV WA8624 WHITE"` (the
spec's brand-filtering example) the anchors are keyword 0, quantity 1, unit
2, code 5, and the amended rule applies. -/
theorem make_from_spans_witness :
    ∃ item,
      parsePaintLineFlexible "Paint 1 Pint MIPA GM/CHEV WA8624 WHITE".data = some item ∧
      item.make = jsOr
        (if 2 + 1 < 5 then
          (if (filterBrands
                (sliceT (tokensOf "Paint 1 Pint MIPA GM/CHEV WA8624 WHITE".data) (2 + 1) 5)).isEmpty
           then "Unknown".data
           else joinSpace (filterBrands
                (sliceT (tokensOf "Paint 1 Pint MIPA GM/CHEV WA8624 WHITE".data) (2 + 1) 5)))
         else if 0 + 1 < 1 then
          (if (filterBrands
                (sliceT (tokensOf "Paint 1 Pint MIPA GM/CHEV WA8624 WHITE".data) (0 + 1) 1)).isEmpty
           then "Unknown".data
           else joinSpace (filterBrands
                (sliceT (tokensOf "Paint 1 Pint MIPA GM/CHEV WA8624 WHITE".data) (0 + 1) 1)))
         else "Unknown".data)
        "Unknown".data ∧
      (item.make = "Unknown".data ∨
        ∃ ts, (∀ t ∈ ts, brandWords.contains (lowerStr t) = false) ∧
          item.make = joinSpace ts) :=
  make_from_spans "Paint 1 Pint MIPA GM/CHEV WA8624 WHITE".data 0 1 2 5 (mkRat 1 1)
    "Pint".data "WA8624".data (by decide) (by decide) (by decide) (by decide) (by decide)

/-- With no paint-mentioning line, the structured tier produces nothing. -/
theorem formatPaintItems_eq_nil_of_no_paint (text : List Char)
    (h : ∀ l ∈ linesOf text, hasPaintCI l = false) : formatPaintItems text = [] := by
  unfold formatPaintItems
  have hnil : (linesOf text).filterMap lineItemOf = [] := by
    rw [List.filterMap_eq_nil_iff]
    intro l hl
    simp [lineItemOf, h l hl]
  rw [hnil]
  rfl

/-- With no paint-mentioning line, the loose filter tier produces nothing. -/
theorem fallback_eq_nil_of_no_paint (text : List Char)
    (h : ∀ l ∈ linesOf text, hasPaintCI l = false) : extractPaintLinesFallback text = [] := by
  unfold extractPaintLinesFallback
  have hnil : (linesOf text).filter hasPaintCI = [] := by
    rw [List.filter_eq_nil_iff]
    intro l hl
    simp [h l hl]
  rw [hnil]
  rfl

/-- C6: `notes` follows the fixed three-tier preference — structured
formatted items, else the loose paint-line filter, else the first 800
characters of the raw text — and in particular a text with no
paint-mentioning line yields the 800-character raw excerpt. -/
theorem notes_three_tier (text : List Char) :
    (formatPaintItems text ≠ [] → notesOf text = formatPaintItems text) ∧
    (formatPaintItems text = [] → extractPaintLinesFallback text ≠ [] →
      notesOf text = extractPaintLinesFallback text) ∧
    (formatPaintItems text = [] → extractPaintLinesFallback text = [] →
      notesOf text = text.take 800) ∧
    ((∀ l ∈ linesOf text, hasPaintCI l = false) → notesOf text = text.take 800) := by
  refine ⟨?_, ?_, ?_, ?_⟩
  · intro h
    simp [notesOf, jsOr, List.isEmpty_iff, h]
  · intro h1 h2
    simp [notesOf, jsOr, List.isEmpty_iff, h1, h2]
  · intro h1 h2
    simp [notesOf, jsOr, List.isEmpty_iff, h1, h2]
  · intro h
    have h1 := formatPaintItems_eq_nil_of_no_paint text h
    have h2 := fallback_eq_nil_of_no_paint text h
    simp [notesOf, jsOr, List.isEmpty_iff, h1, h2]

/-- C6 witness: a text with no paint line at all falls through to the raw
excerpt. -/
theorem notes_three_tier_witness :
    notesOf "hello\nworld".data = List.take 800 "hello\nworld".data :=
  (notes_three_tier "hello\nworld".data).2.2.2 (by decide)

/-- C7 counterexample: on the one-line document `"Invoice #1807583"` no line
qualifies (its only line contains `"invoice"`), and the extractor returns
the empty string — not the first non-empty line the claim prescribes. -/
theorem supplier_fallback_counterexample :
    extractSupplier "Invoice #1807583".data = [] ∧
    linesOf "Invoice #1807583".data = ["Invoice #1807583".data] ∧
    ([] : List Char) ≠ "Invoice #1807583".data := by
  refine ⟨by decide, by decide, by decide⟩

/-- C7 amended: the supplier extractor scans the first 10 non-empty trimmed
lines and returns the first that avoids every skip-list substring and has at
least 4 alphabetic characters; when no such line exists it returns the empty
string (not the first non-empty line). -/
theorem extractSupplier_scan (text : List Char) :
    (∃ i, i < ((linesOf text).take 10).length ∧
      supplierOk (((linesOf text).take 10).getD i []) = true ∧
      (∀ k, k < i → supplierOk (((linesOf text).take 10).getD k []) = false) ∧
      extractSupplier text = ((linesOf text).take 10).getD i []) ∨
    ((∀ l ∈ (linesOf text).take 10, supplierOk l = false) ∧
      extractSupplier text = []) := by
  unfold extractSupplier
  cases hs : scanList supplierOk ((linesOf text).take 10) with
  | none =>
    right
    exact ⟨(scanList_eq_none_iff _ _).mp hs, rfl⟩
  | some r =>
    obtain ⟨j, t⟩ := r
    left
    obtain ⟨hlt, hget, hok, hmin⟩ := scanList_some_spec supplierOk _ j t hs
    exact ⟨j, hlt, by rw [hget]; exact hok, hmin, hget.symm⟩

/-- C7 amended witness at a one-line document whose line qualifies. -/
theorem extractSupplier_scan_witness :
    (∃ i, i < ((linesOf "Blue Sky Co".data).take 10).length ∧
      supplierOk (((linesOf "Blue Sky Co".data).take 10).getD i []) = true ∧
      (∀ k, k < i →
        supplierOk (((linesOf "Blue Sky Co".data).take 10).getD k []) = false) ∧
      extractSupplier "Blue Sky Co".data =
        ((linesOf "Blue Sky Co".data).take 10).getD i []) ∨
    ((∀ l ∈ (linesOf "Blue Sky Co".data).take 10, supplierOk l = false) ∧
      extractSupplier "Blue Sky Co".data = []) :=
  extractSupplier_scan "Blue Sky Co".data

/-- C8: the total extractor returns `202.00` on `"Total $202.00"`, `1250.00`
on `"Balance Due $1,250.00"` (thousands separator removed), and `null` on
any text where neither the total pattern nor the amount-due/balance-due
pattern matches — it never fails. -/
theorem extractTotal_patterns :
    extractTotal "Total $202.00".data = some (202 : Rat) ∧
    extractTotal "Balance Due $1,250.00".data = some (1250 : Rat) ∧
    ∀ text : List Char, searchPat totalPatAt text = none → searchPat duePatAt text = none →
      extractTotal text = none := by
  have e1 : (202 : Rat) = mkRat 202 1 := by norm_num [Rat.mkRat_eq_div]
  have e2 : (1250 : Rat) = mkRat 1250 1 := by norm_num [Rat.mkRat_eq_div]
  refine ⟨by rw [e1]; decide, by rw [e2]; decide, ?_⟩
  intro text h1 h2
  unfold extractTotal
  rw [h1, h2]

/-- C8 witness: a text matching neither pattern yields `null`. -/
theorem extractTotal_patterns_witness :
    extractTotal "no amounts here".data = none :=
  extractTotal_patterns.2.2 "no amounts here".data (by decide) (by decide)
